import Mathlib

/-!
Verification of the Sahab-Pharmacy inventory ledger and FIFO costing engine.

The development shallowly embeds the core business-logic functions of the
repository (src/src/lib/calculations.ts, the alert module, the POS sale
component, src/src/services/stock.ts and the stocktake manager) as pure Lean
functions and proves the specified properties about them.

Modelling conventions, applied uniformly:
* String identifiers (product ids, batch ids, session ids) are modelled as
  `Nat`; only equality of ids is ever used by the code.
* JavaScript numbers holding quantities are integers in practice and are
  modelled as `Int`; monetary amounts (cost/selling prices) are modelled as
  exact rationals `ℚ` in place of IEEE doubles.
* Dates are midnight-normalised before every comparison in the source
  (`setHours(0,0,0,0)`), so `new Date(d).getTime()` values form an
  order-isomorphic integer scale; we model a date as its day index `Int`.
  `getDaysUntilExpiry` then is `expiryDate - today` (the `Math.ceil` in the
  source is the identity on exact multiples of a day), and `isExpired` is
  `expiryDate < today`.
* The persistence service is modelled as in-memory lists: the list of all
  stock-movement rows and the list of all stock-batch rows. A fetch filtered
  by product is `List.filter`; a fetch `order('expiry_date', ascending)` and
  the JS `Array.prototype.sort` (stable since ES2019) are modelled by the
  stable `List.insertionSort` on the expiry key.
-/

namespace Pharmacy

/-- A stock-batch row (`StockBatch` in src/src/lib/types.ts, column mapping in
src/src/services/stock.ts).  Fields not consulted by the verified code paths
(supplier, receivedDate, createdAt) are omitted. -/
structure StockBatch where
  id : Nat
  productId : Nat
  batchNumber : Nat
  expiryDate : Int
  costPrice : ℚ
  remainingQuantity : Int
  deriving Repr, DecidableEq

/-- A stock-movement row.  The ledger aggregation in the source reads only the
product reference and the signed `quantity`; the remaining columns
(type, costPrice, sellingPrice, reason, reference, userId, createdAt) are
never consulted by the verified computations and are omitted. -/
structure StockMovement where
  productId : Nat
  quantity : Int
  deriving Repr, DecidableEq

/-- A product row; only the fields read by the verified code paths. -/
structure Product where
  id : Nat
  sellingPrice : ℚ
  reorderPoint : Int
  active : Bool
  deriving Repr, DecidableEq

/-! ### Movement Ledger (src/src/lib/calculations.ts, calculateCurrentStockAsync) -/

/-- `fetchStockMovementsByProduct`: the movement rows of one product.  The
store orders them by creation time for display; the ledger sum below is
order-independent, which claim C2 makes precise. -/
def movementsFor (movements : List StockMovement) (productId : Nat) : List StockMovement :=
  movements.filter (fun m => m.productId = productId)

/-- The raw signed sum `movements.reduce((sum, m) => sum + m.quantity, 0)` of
`calculateCurrentStockAsync`. -/
def movementSum (movements : List StockMovement) (productId : Nat) : Int :=
  ((movementsFor movements productId).map (fun m => m.quantity)).sum

/-- `calculateCurrentStockAsync` reports `Math.max(0, quantity)` where
`quantity` is the signed movement sum. -/
def calculateCurrentStock (movements : List StockMovement) (productId : Nat) : Int :=
  max 0 (movementSum movements productId)

lemma movementSum_perm {ms₁ ms₂ : List StockMovement} (h : ms₁.Perm ms₂) (pid : Nat) :
    movementSum ms₁ pid = movementSum ms₂ pid :=
  ((h.filter _).map _).sum_eq

/-- C2 (corrected): the ledger's reported quantity is the *clamped* movement
sum `max 0 (Σ quantities)`; it equals the raw signed sum whenever that sum is
non-negative, and it is invariant under reordering (reinsertion in any order)
of the movement rows. -/
theorem currentStock_clamped_sum_order_independent
    (ms₁ ms₂ : List StockMovement) (pid : Nat) (hperm : ms₁.Perm ms₂) :
    calculateCurrentStock ms₁ pid = calculateCurrentStock ms₂ pid ∧
    calculateCurrentStock ms₁ pid = max 0 (movementSum ms₁ pid) ∧
    (0 ≤ movementSum ms₁ pid → calculateCurrentStock ms₁ pid = movementSum ms₁ pid) := by
  refine ⟨?_, rfl, ?_⟩
  · unfold calculateCurrentStock
    rw [movementSum_perm hperm]
  · intro h
    unfold calculateCurrentStock
    omega

/-- Witness for C2 at a concrete input. -/
theorem currentStock_clamped_sum_order_independent_witness :
    calculateCurrentStock [⟨1, 4⟩, ⟨1, -3⟩] 1 = calculateCurrentStock [⟨1, -3⟩, ⟨1, 4⟩] 1 ∧
    calculateCurrentStock [⟨1, 4⟩, ⟨1, -3⟩] 1 = movementSum [⟨1, 4⟩, ⟨1, -3⟩] 1 := by
  have h := currentStock_clamped_sum_order_independent
    [⟨1, 4⟩, ⟨1, -3⟩] [⟨1, -3⟩, ⟨1, 4⟩] 1 (by decide)
  exact ⟨h.1, h.2.2 (by decide)⟩

/-- C2 counterexample to the claim as stated: with a single movement of
quantity `-1` the ledger reports `0`, not the signed sum `-1` (the code clamps
with `Math.max(0, ·)`). -/
theorem currentStock_ne_raw_sum :
    calculateCurrentStock [⟨1, -1⟩] 1 ≠ movementSum [⟨1, -1⟩] 1 := by decide

/-! ### FIFO Allocator (src/src/lib/calculations.ts, getFIFOBatchesAsync and
deductStockFIFOAsync) -/

/-- `fetchStockBatchesByProduct` restricted to the rows of one product (the
service additionally pre-filters `remaining_quantity > 0` and pre-orders by
expiry, which `getFIFOBatches` below redoes explicitly like the source). -/
def batchesForProduct (store : List StockBatch) (productId : Nat) : List StockBatch :=
  store.filter (fun b => b.productId = productId)

/-- `getFIFOBatchesAsync`: the product's batches with `remainingQuantity > 0`,
sorted ascending by expiry date (stable, so rows with equal expiry keep their
stored order). -/
def getFIFOBatches (store : List StockBatch) (productId : Nat) : List StockBatch :=
  List.insertionSort (fun a b => a.expiryDate ≤ b.expiryDate)
    ((batchesForProduct store productId).filter (fun b => 0 < b.remainingQuantity))

/-- One planned deduction of `deductStockFIFOAsync`. -/
structure StockDeduction where
  batchId : Nat
  quantity : Int
  costPrice : ℚ
  deriving Repr, DecidableEq

/-- The result value of `deductStockFIFOAsync`.  The `error` string of the
failure case carries no further information and is omitted. -/
structure DeductStockResult where
  success : Bool
  deductions : List StockDeduction
  deriving Repr, DecidableEq

/-- The `for (const batch of batches)` loop of `deductStockFIFOAsync`: walks
the FIFO batch list and returns the accumulated `deductions`, the accumulated
`updatedBatches` entries `(batch.id, batch.remainingQuantity - deductAmount)`,
and the final `remaining`.  Each `deductAmount` is
`Math.min(remaining, batch.remainingQuantity)`; the loop breaks once
`remaining <= 0`. -/
def deductLoop : Int → List StockBatch → List StockDeduction × List (Nat × Int) × Int
  | remaining, [] => ([], [], remaining)
  | remaining, b :: rest =>
    if remaining ≤ 0 then ([], [], remaining)
    else
      (⟨b.id, min remaining b.remainingQuantity, b.costPrice⟩ ::
         (deductLoop (remaining - min remaining b.remainingQuantity) rest).1,
       (b.id, b.remainingQuantity - min remaining b.remainingQuantity) ::
         (deductLoop (remaining - min remaining b.remainingQuantity) rest).2.1,
       (deductLoop (remaining - min remaining b.remainingQuantity) rest).2.2)

/-- One `updateStockBatch(batchId, { remainingQuantity })` call: an absolute
write of the new remaining quantity to the row(s) with that id. -/
def writeRemaining (store : List StockBatch) (u : Nat × Int) : List StockBatch :=
  store.map (fun b => if b.id = u.1 then { b with remainingQuantity := u.2 } else b)

/-- The `Promise.all(updatedBatches.map(... updateStockBatch ...))` step,
modelled as the sequence of the independent per-batch writes (one planned
write per walked batch; walked batches are pairwise distinct rows). -/
def applyUpdates (store : List StockBatch) (updates : List (Nat × Int)) : List StockBatch :=
  updates.foldl writeRemaining store

/-- `deductStockFIFOAsync` as a state transformer on the batch store: it
returns the result value together with the batch store after the
`updateStockBatch` writes it performs itself on success (on failure it
returns `{ success: false, deductions: [] }` and writes nothing). -/
def deductStockFIFOAsync (store : List StockBatch) (productId : Nat) (quantity : Int) :
    DeductStockResult × List StockBatch :=
  if 0 < (deductLoop quantity (getFIFOBatches store productId)).2.2 then
    ({ success := false, deductions := [] }, store)
  else
    ({ success := true, deductions := (deductLoop quantity (getFIFOBatches store productId)).1 },
     applyUpdates store (deductLoop quantity (getFIFOBatches store productId)).2.1)

/-- The allocation algorithm exactly as §4.2 of the specification words it:
walk the (positive-remaining, expiry-ascending) batch list, deducting
`min(remaining requested, batch.remainingQuantity)` from each batch in turn
until the request is exhausted.  Stated independently as the refinement
target for claim C1. -/
def specFIFODeductions : Int → List StockBatch → List (Nat × Int)
  | _, [] => []
  | requested, b :: rest =>
    if requested ≤ 0 then []
    else
      (b.id, min requested b.remainingQuantity) ::
        specFIFODeductions (requested - min requested b.remainingQuantity) rest

/-- The total remaining quantity across all of a product's batches. -/
def totalAvailable (store : List StockBatch) (productId : Nat) : Int :=
  ((batchesForProduct store productId).map (fun b => b.remainingQuantity)).sum

/-- Sum of the quantities that a deduction list takes from one batch id. -/
def deductedFrom (deductions : List StockDeduction) (batchId : Nat) : Int :=
  ((deductions.filter (fun d => d.batchId = batchId)).map (fun d => d.quantity)).sum

lemma deductedFrom_nil (i : Nat) : deductedFrom [] i = 0 := rfl

lemma deductedFrom_cons (d : StockDeduction) (ds : List StockDeduction) (i : Nat) :
    deductedFrom (d :: ds) i =
      (if d.batchId = i then d.quantity else 0) + deductedFrom ds i := by
  by_cases h : d.batchId = i <;> simp [deductedFrom, List.filter_cons, h]

/-- A walked batch list containing no batch with id `i` deducts nothing
from `i`. -/
lemma deductedFrom_deductLoop_eq_zero (q : Int) (L : List StockBatch) (i : Nat)
    (h : i ∉ L.map (fun b => b.id)) :
    deductedFrom (deductLoop q L).1 i = 0 := by
  induction L generalizing q with
  | nil => rfl
  | cons b rest ih =>
    simp only [List.map_cons, List.mem_cons] at h
    push_neg at h
    by_cases hq : q ≤ 0
    · simp [deductLoop, hq, deductedFrom]
    · simp only [deductLoop, if_neg hq, deductedFrom_cons]
      rw [if_neg (fun hb => h.1 hb.symm), ih _ h.2]
      omega

/-- The deduction list computed by the loop is exactly the walk the
specification describes. -/
lemma deductLoop_map_eq_spec (q : Int) (L : List StockBatch) :
    (deductLoop q L).1.map (fun d => (d.batchId, d.quantity)) = specFIFODeductions q L := by
  induction L generalizing q with
  | nil => rfl
  | cons b rest ih =>
    by_cases hq : q ≤ 0
    · simp [deductLoop, specFIFODeductions, hq]
    · simp [deductLoop, specFIFODeductions, hq, ih]

lemma deductLoop_nonpos (q : Int) (L : List StockBatch) (hq : q ≤ 0) :
    (deductLoop q L).2.2 = q := by
  cases L with
  | nil => rfl
  | cons b rest => simp [deductLoop, hq]

/-- If the walked batches (all with positive remaining quantity) cover the
request, the final `remaining` is non-positive. -/
lemma deductLoop_remaining_nonpos (q : Int) (L : List StockBatch)
    (hpos : ∀ b ∈ L, 0 < b.remainingQuantity)
    (hcov : q ≤ (L.map (fun b => b.remainingQuantity)).sum) :
    (deductLoop q L).2.2 ≤ 0 := by
  induction L generalizing q with
  | nil =>
    simpa [deductLoop] using hcov
  | cons b rest ih =>
    by_cases hq : q ≤ 0
    · simp [deductLoop, hq]
    · simp only [deductLoop, if_neg hq]
      by_cases hle : q ≤ b.remainingQuantity
      · have hmin : min q b.remainingQuantity = q := min_eq_left hle
        rw [hmin, deductLoop_nonpos _ _ (by omega)]
        omega
      · have hmin : min q b.remainingQuantity = b.remainingQuantity :=
          min_eq_right (by omega)
        rw [hmin]
        refine ih _ (fun c hc => hpos c (List.mem_cons_of_mem _ hc)) ?_
        simp only [List.map_cons, List.sum_cons] at hcov
        omega

/-- If the walked batches (all with positive remaining quantity) cannot cover
the request, the final `remaining` stays positive. -/
lemma deductLoop_remaining_pos (q : Int) (L : List StockBatch)
    (hpos : ∀ b ∈ L, 0 < b.remainingQuantity)
    (hins : (L.map (fun b => b.remainingQuantity)).sum < q) :
    0 < (deductLoop q L).2.2 := by
  induction L generalizing q with
  | nil => simpa [deductLoop] using hins
  | cons b rest ih =>
    have hb : 0 < b.remainingQuantity := hpos b (List.mem_cons_self _ _)
    have hrest : 0 ≤ (rest.map (fun b => b.remainingQuantity)).sum :=
      List.sum_nonneg (by
        intro x hx
        obtain ⟨c, hc, rfl⟩ := List.mem_map.1 hx
        exact le_of_lt (hpos c (List.mem_cons_of_mem _ hc)))
    simp only [List.map_cons, List.sum_cons] at hins
    have hq : ¬ q ≤ 0 := by omega
    simp only [deductLoop, if_neg hq]
    have hmin : min q b.remainingQuantity = b.remainingQuantity :=
      min_eq_right (by omega)
    rw [hmin]
    exact ih _ (fun c hc => hpos c (List.mem_cons_of_mem _ hc)) (by omega)

/-- Every batch in the FIFO list has positive remaining quantity. -/
lemma getFIFOBatches_pos (store : List StockBatch) (pid : Nat) :
    ∀ b ∈ getFIFOBatches store pid, 0 < b.remainingQuantity := by
  intro b hb
  rw [getFIFOBatches, List.mem_insertionSort] at hb
  simpa using (List.mem_filter.1 hb).2

/-- Every batch in the FIFO list is a row of the store. -/
lemma getFIFOBatches_subset (store : List StockBatch) (pid : Nat) :
    ∀ b ∈ getFIFOBatches store pid, b ∈ store := by
  intro b hb
  rw [getFIFOBatches, List.mem_insertionSort] at hb
  exact (List.mem_filter.1 ((List.mem_filter.1 hb).1)).1

lemma sum_le_filter_pos_sum (l : List StockBatch) :
    (l.map (fun b => b.remainingQuantity)).sum
      ≤ ((l.filter (fun b => 0 < b.remainingQuantity)).map
          (fun b => b.remainingQuantity)).sum := by
  induction l with
  | nil => simp
  | cons b rest ih =>
    by_cases hb : 0 < b.remainingQuantity
    · simp only [List.filter_cons, List.map_cons, List.sum_cons]
      rw [if_pos (by simpa using hb)]
      simp only [List.map_cons, List.sum_cons]
      omega
    · simp only [List.filter_cons, List.map_cons, List.sum_cons]
      rw [if_neg (by simpa using hb)]
      omega

lemma filter_pos_sum_le_sum (l : List StockBatch)
    (hnn : ∀ b ∈ l, 0 ≤ b.remainingQuantity) :
    ((l.filter (fun b => 0 < b.remainingQuantity)).map
        (fun b => b.remainingQuantity)).sum
      ≤ (l.map (fun b => b.remainingQuantity)).sum := by
  induction l with
  | nil => simp
  | cons b rest ih =>
    have hb : 0 ≤ b.remainingQuantity := hnn b (List.mem_cons_self _ _)
    have hrest := ih (fun c hc => hnn c (List.mem_cons_of_mem _ hc))
    by_cases hpos : 0 < b.remainingQuantity
    · simp only [List.filter_cons, List.map_cons, List.sum_cons]
      rw [if_pos (by simpa using hpos)]
      simp only [List.map_cons, List.sum_cons]
      omega
    · simp only [List.filter_cons, List.map_cons, List.sum_cons]
      rw [if_neg (by simpa using hpos)]
      omega

/-- The FIFO list's remaining-quantity total is at least the product's total
across all batches (batches dropped by the positivity filter contribute
non-positively). -/
lemma totalAvailable_le_fifo_sum (store : List StockBatch) (pid : Nat) :
    totalAvailable store pid
      ≤ ((getFIFOBatches store pid).map (fun b => b.remainingQuantity)).sum := by
  have hperm :
      ((getFIFOBatches store pid).map (fun b => b.remainingQuantity)).sum
        = (((batchesForProduct store pid).filter
            (fun b => 0 < b.remainingQuantity)).map (fun b => b.remainingQuantity)).sum :=
    ((List.perm_insertionSort _ _).map _).sum_eq
  rw [hperm, totalAvailable]
  exact sum_le_filter_pos_sum _

/-- When every batch of the product has non-negative remaining quantity, the
FIFO list's total is at most the product total (dropped batches hold zero). -/
lemma fifo_sum_le_totalAvailable (store : List StockBatch) (pid : Nat)
    (hnn : ∀ b ∈ batchesForProduct store pid, 0 ≤ b.remainingQuantity) :
    ((getFIFOBatches store pid).map (fun b => b.remainingQuantity)).sum
      ≤ totalAvailable store pid := by
  have hperm :
      ((getFIFOBatches store pid).map (fun b => b.remainingQuantity)).sum
        = (((batchesForProduct store pid).filter
            (fun b => 0 < b.remainingQuantity)).map (fun b => b.remainingQuantity)).sum :=
    ((List.perm_insertionSort _ _).map _).sum_eq
  rw [hperm, totalAvailable]
  exact filter_pos_sum_le_sum _ hnn

/-- C1 (confirmed): whenever the request is covered by the product's total
available stock, the allocator succeeds and its deduction list is exactly the
specification's FIFO walk — the positive-remaining batches in ascending
expiry order, each charged `min(remaining requested, batch.remainingQuantity)`
until the request is exhausted. -/
theorem fifo_deductions_follow_spec (store : List StockBatch) (pid : Nat) (q : Int)
    (hcov : q ≤ totalAvailable store pid) :
    (deductStockFIFOAsync store pid q).1.success = true ∧
    (deductStockFIFOAsync store pid q).1.deductions.map (fun d => (d.batchId, d.quantity))
      = specFIFODeductions q (getFIFOBatches store pid) := by
  have hrem : (deductLoop q (getFIFOBatches store pid)).2.2 ≤ 0 :=
    deductLoop_remaining_nonpos q _ (getFIFOBatches_pos store pid)
      (le_trans hcov (totalAvailable_le_fifo_sum store pid))
  rw [deductStockFIFOAsync, if_neg (by omega)]
  exact ⟨rfl, deductLoop_map_eq_spec q _⟩

/-- Witness for C1: the specification's own scenario — expiry dates
`1 < 2 < 3`, remaining quantities `[5, 5, 5]`, allocating `7` deducts
`[(batch1, 5), (batch2, 2)]` and leaves batch 3 untouched (its planned
deduction list has no entry for batch 3, and its row still holds 5 after the
allocator's own writes). -/
theorem fifo_deductions_follow_spec_witness :
    (7 : Int) ≤ totalAvailable
        [⟨1, 1, 1, 1, 2, 5⟩, ⟨2, 1, 2, 2, 2, 5⟩, ⟨3, 1, 3, 3, 2, 5⟩] 1 ∧
    (deductStockFIFOAsync
        [⟨1, 1, 1, 1, 2, 5⟩, ⟨2, 1, 2, 2, 2, 5⟩, ⟨3, 1, 3, 3, 2, 5⟩] 1 7).1.success = true ∧
    (deductStockFIFOAsync
        [⟨1, 1, 1, 1, 2, 5⟩, ⟨2, 1, 2, 2, 2, 5⟩, ⟨3, 1, 3, 3, 2, 5⟩] 1 7).1.deductions.map
          (fun d => (d.batchId, d.quantity)) = [(1, 5), (2, 2)] ∧
    (⟨3, 1, 3, 3, 2, 5⟩ : StockBatch) ∈
      (deductStockFIFOAsync
        [⟨1, 1, 1, 1, 2, 5⟩, ⟨2, 1, 2, 2, 2, 5⟩, ⟨3, 1, 3, 3, 2, 5⟩] 1 7).2 := by
  have h := fifo_deductions_follow_spec
    [⟨1, 1, 1, 1, 2, 5⟩, ⟨2, 1, 2, 2, 2, 5⟩, ⟨3, 1, 3, 3, 2, 5⟩] 1 7 (by decide)
  refine ⟨by decide, h.1, ?_, by decide⟩
  rw [h.2]
  decide

/-- C3 (confirmed): when the request strictly exceeds the product's total
remaining quantity, the allocator returns failure with an empty deduction
list and leaves the batch store completely unchanged. -/
theorem insufficient_stock_no_mutation (store : List StockBatch) (pid : Nat) (q : Int)
    (hnn : ∀ b ∈ batchesForProduct store pid, 0 ≤ b.remainingQuantity)
    (hins : totalAvailable store pid < q) :
    deductStockFIFOAsync store pid q = ({ success := false, deductions := [] }, store) := by
  have hrem : 0 < (deductLoop q (getFIFOBatches store pid)).2.2 :=
    deductLoop_remaining_pos q _ (getFIFOBatches_pos store pid)
      (lt_of_le_of_lt (fifo_sum_le_totalAvailable store pid hnn) hins)
  rw [deductStockFIFOAsync, if_pos hrem]

/-- Witness for C3: requesting 9 against a single batch holding 5. -/
theorem insufficient_stock_no_mutation_witness :
    (∀ b ∈ batchesForProduct [⟨1, 1, 1, 1, 2, 5⟩] 1, 0 ≤ b.remainingQuantity) ∧
    totalAvailable [⟨1, 1, 1, 1, 2, 5⟩] 1 < 9 ∧
    deductStockFIFOAsync [⟨1, 1, 1, 1, 2, 5⟩] 1 9
      = ({ success := false, deductions := [] }, [⟨1, 1, 1, 1, 2, 5⟩]) :=
  ⟨by decide, by decide,
    insufficient_stock_no_mutation [⟨1, 1, 1, 1, 2, 5⟩] 1 9 (by decide) (by decide)⟩

/-! ### Allocator state change and sale rollback (src/src/lib/calculations.ts
lines 103-113; POS component `revertDeductions` and `processSale`) -/

lemma applyUpdates_nil (store : List StockBatch) : applyUpdates store [] = store := rfl

lemma applyUpdates_cons (store : List StockBatch) (u : Nat × Int) (us : List (Nat × Int)) :
    applyUpdates store (u :: us) = applyUpdates (writeRemaining store u) us := rfl

/-- The ids recorded by the walk's planned updates are ids of walked batches. -/
lemma deductLoop_update_ids (q : Int) (L : List StockBatch) :
    ∀ u ∈ (deductLoop q L).2.1, u.1 ∈ L.map (fun b => b.id) := by
  induction L generalizing q with
  | nil => intro u hu; cases hu
  | cons b rest ih =>
    intro u hu
    by_cases hq : q ≤ 0
    · simp [deductLoop, hq] at hu
    · simp only [deductLoop, if_neg hq, List.mem_cons] at hu
      rcases hu with rfl | hu
      · exact List.mem_cons_self _ _
      · exact List.mem_cons_of_mem _ (ih _ u hu)

/-- Core correspondence: applying the walk's absolute batch writes to a store
whose rows agree with the walked batches (and whose walked ids are pairwise
distinct) subtracts from each row exactly the quantity the walk deducted from
its id. -/
lemma deductLoop_applyUpdates (L : List StockBatch) :
    ∀ (q : Int) (store : List StockBatch),
      (L.map (fun b => b.id)).Nodup →
      (∀ b ∈ L, ∀ x ∈ store, x.id = b.id → x.remainingQuantity = b.remainingQuantity) →
      applyUpdates store (deductLoop q L).2.1
        = store.map (fun x =>
            { x with remainingQuantity :=
                x.remainingQuantity - deductedFrom (deductLoop q L).1 x.id }) := by
  induction L with
  | nil =>
    intro q store _ _
    simp only [deductLoop, applyUpdates_nil, deductedFrom_nil, Int.sub_zero]
    exact (List.map_id'' (fun x => rfl) _).symm
  | cons b rest ih =>
    intro q store hnd hrem
    by_cases hq : q ≤ 0
    · simp only [deductLoop, if_pos hq, applyUpdates_nil, deductedFrom_nil, Int.sub_zero]
      exact (List.map_id'' (fun x => rfl) _).symm
    · have hndrest : (rest.map (fun b => b.id)).Nodup := (List.nodup_cons.1 (by simpa using hnd)).2
      have hbnotin : b.id ∉ rest.map (fun c => c.id) :=
        (List.nodup_cons.1 (by simpa using hnd)).1
      have hw : writeRemaining store (b.id, b.remainingQuantity - min q b.remainingQuantity)
          = store.map (fun y => if y.id = b.id then
              { y with remainingQuantity := b.remainingQuantity - min q b.remainingQuantity }
            else y) := rfl
      simp only [deductLoop, if_neg hq]
      rw [applyUpdates_cons]
      rw [ih (q - min q b.remainingQuantity) (writeRemaining store (b.id, b.remainingQuantity - min q b.remainingQuantity)) hndrest ?hrem]
      case hrem =>
        intro c hc x hx hxc
        rw [hw] at hx
        obtain ⟨y, hy, rfl⟩ := List.mem_map.1 hx
        by_cases hyb : y.id = b.id
        · exfalso
          rw [if_pos hyb] at hxc
          have hcy : y.id = c.id := hxc
          exact hbnotin (List.mem_map.2 ⟨c, hc, by rw [← hcy, hyb]⟩)
        · rw [if_neg hyb] at hxc ⊢
          exact hrem c (List.mem_cons_of_mem _ hc) y hy hxc
      rw [hw, List.map_map]
      refine List.map_congr_left ?_
      intro x hx
      simp only [Function.comp]
      by_cases hxb : x.id = b.id
      · rw [if_pos hxb]
        have hxrem : x.remainingQuantity = b.remainingQuantity :=
          hrem b (List.mem_cons_self _ _) x hx hxb
        have hzero :
            deductedFrom (deductLoop (q - min q b.remainingQuantity) rest).1 x.id = 0 :=
          deductedFrom_deductLoop_eq_zero _ _ _ (hxb ▸ hbnotin)
        simp only [deductedFrom_cons, hzero]
        rw [if_pos hxb.symm]
        simp only [StockBatch.mk.injEq, true_and, and_true]
        omega
      · rw [if_neg hxb]
        simp only [deductedFrom_cons]
        rw [if_neg (fun h => hxb h.symm)]
        simp only [StockBatch.mk.injEq, true_and, and_true]
        omega

/-- On success `deductStockFIFOAsync` itself writes the decrements: the store
it returns is the input store with each row's remaining quantity reduced by
the total quantity its id was charged in the returned deductions.  (Requires
the store's batch ids to be pairwise distinct, as rows of a table are.) -/
lemma deductStockFIFO_state_eq (store : List StockBatch) (pid : Nat) (q : Int)
    (hnd : (store.map (fun b => b.id)).Nodup)
    (hs : (deductStockFIFOAsync store pid q).1.success = true) :
    (deductStockFIFOAsync store pid q).2
      = store.map (fun b =>
          { b with remainingQuantity :=
              b.remainingQuantity
                - deductedFrom (deductStockFIFOAsync store pid q).1.deductions b.id }) := by
  by_cases hrem : 0 < (deductLoop q (getFIFOBatches store pid)).2.2
  · rw [deductStockFIFOAsync, if_pos hrem] at hs
    simp at hs
  · have hfifoids : ((getFIFOBatches store pid).map (fun b => b.id)).Nodup := by
      have hsub : ((batchesForProduct store pid).filter
            (fun b => 0 < b.remainingQuantity)).Sublist store :=
        ((List.filter_sublist _).trans (List.filter_sublist _))
      have hperm := (List.perm_insertionSort
        (fun a b : StockBatch => a.expiryDate ≤ b.expiryDate)
        ((batchesForProduct store pid).filter (fun b => 0 < b.remainingQuantity))).map
        (fun b => b.id)
      exact hperm.nodup_iff.2 ((hsub.map (fun b => b.id)).nodup hnd)
    have hagree : ∀ b ∈ getFIFOBatches store pid, ∀ x ∈ store,
        x.id = b.id → x.remainingQuantity = b.remainingQuantity := by
      intro b hb x hx hxb
      have hbst : b ∈ store := getFIFOBatches_subset store pid b hb
      have := List.inj_on_of_nodup_map hnd hx hbst hxb
      rw [this]
    rw [deductStockFIFOAsync, if_neg hrem]
    simpa using deductLoop_applyUpdates (getFIFOBatches store pid) q store hfifoids hagree

/-- C5 counterexample to the claim as stated: a successful allocation is not
mutation-free — allocating 3 from a single batch holding 5 returns success
and a store whose row now holds 2, not the input store. -/
theorem allocator_mutates_on_success :
    (deductStockFIFOAsync [⟨1, 1, 1, 1, 2, 5⟩] 1 3).1.success = true ∧
    (deductStockFIFOAsync [⟨1, 1, 1, 1, 2, 5⟩] 1 3).2 ≠ [⟨1, 1, 1, 1, 2, 5⟩] := by decide

/-- C5 (corrected): on a successful allocation the allocator itself persists
the batch remaining-quantity decrements — the store it returns is the input
store with every row decremented by the quantity the returned plan deducts
from it (rows absent from the plan are unchanged, their decrement being 0);
only the corresponding sale movements are left to the calling orchestrator. -/
theorem allocator_commits_decrements (store : List StockBatch) (pid : Nat) (q : Int)
    (hnd : (store.map (fun b => b.id)).Nodup)
    (hs : (deductStockFIFOAsync store pid q).1.success = true) :
    (deductStockFIFOAsync store pid q).2
      = store.map (fun b =>
          { b with remainingQuantity :=
              b.remainingQuantity
                - deductedFrom (deductStockFIFOAsync store pid q).1.deductions b.id }) :=
  deductStockFIFO_state_eq store pid q hnd hs

/-- Witness for C5's corrected statement. -/
theorem allocator_commits_decrements_witness :
    ((([⟨1, 1, 1, 1, 2, 5⟩] : List StockBatch).map (fun b => b.id)).Nodup) ∧
    (deductStockFIFOAsync [⟨1, 1, 1, 1, 2, 5⟩] 1 3).1.success = true ∧
    (deductStockFIFOAsync [⟨1, 1, 1, 1, 2, 5⟩] 1 3).2
      = ([⟨1, 1, 1, 1, 2, 5⟩] : List StockBatch).map (fun b =>
          { b with remainingQuantity :=
              b.remainingQuantity
                - deductedFrom (deductStockFIFOAsync [⟨1, 1, 1, 1, 2, 5⟩] 1 3).1.deductions b.id }) :=
  ⟨by decide, by decide,
    allocator_commits_decrements [⟨1, 1, 1, 1, 2, 5⟩] 1 3 (by decide) (by decide)⟩

/-- One `batchUpdates.set(batchId, current + quantity)` step of the POS
component's `revertDeductions`: a JS `Map` entry update, keyed by batch id,
keeping first-insertion order. -/
def addToGroup : List (Nat × Int) → Nat → Int → List (Nat × Int)
  | [], batchId, q => [(batchId, q)]
  | (j, t) :: rest, batchId, q =>
    if j = batchId then (j, t + q) :: rest else (j, t) :: addToGroup rest batchId q

/-- `revertDeductions` first groups the deductions by batch id, summing the
quantities per batch (`deductions.forEach` over the `batchUpdates` map). -/
def groupDeductions (deductions : List StockDeduction) : List (Nat × Int) :=
  deductions.foldl (fun acc d => addToGroup acc d.batchId d.quantity) []

/-- One revert write: the batch is refetched and its remaining quantity is set
to `batch.remainingQuantity + quantityToRevert` — an additive update of the
current value. -/
def addRemaining (store : List StockBatch) (u : Nat × Int) : List StockBatch :=
  store.map (fun b =>
    if b.id = u.1 then { b with remainingQuantity := b.remainingQuantity + u.2 } else b)

/-- The POS component's `revertDeductions` (src/unnamed/part_006): group the
deductions by batch id, then add each group's total back to that batch's
remaining quantity (one write per affected batch; the writes touch pairwise
distinct ids, so the `Promise.all` is modelled sequentially). -/
def revertDeductions (store : List StockBatch) (deductions : List StockDeduction) :
    List StockBatch :=
  (groupDeductions deductions).foldl addRemaining store

/-- Total quantity a grouped update list assigns to one batch id. -/
def groupTotal (gs : List (Nat × Int)) (i : Nat) : Int :=
  ((gs.filter (fun u => u.1 = i)).map (fun u => u.2)).sum

lemma groupTotal_nil (i : Nat) : groupTotal [] i = 0 := rfl

lemma groupTotal_cons (u : Nat × Int) (gs : List (Nat × Int)) (i : Nat) :
    groupTotal (u :: gs) i = (if u.1 = i then u.2 else 0) + groupTotal gs i := by
  by_cases h : u.1 = i <;> simp [groupTotal, List.filter_cons, h]

lemma addToGroup_total (acc : List (Nat × Int)) (j : Nat) (q : Int) (i : Nat) :
    groupTotal (addToGroup acc j q) i = groupTotal acc i + (if j = i then q else 0) := by
  induction acc with
  | nil =>
    by_cases h : j = i <;> simp [addToGroup, groupTotal_cons, groupTotal_nil, h]
  | cons u rest ih =>
    obtain ⟨k, t⟩ := u
    by_cases hkj : k = j
    · subst hkj
      have h1 : addToGroup ((k, t) :: rest) k q = (k, t + q) :: rest := by
        simp [addToGroup]
      rw [h1, groupTotal_cons, groupTotal_cons]
      split_ifs <;> omega
    · simp only [addToGroup, if_neg hkj, groupTotal_cons, ih]
      omega

lemma groupDeductions_total (ds : List StockDeduction) (i : Nat) :
    groupTotal (groupDeductions ds) i = deductedFrom ds i := by
  suffices h : ∀ acc : List (Nat × Int),
      groupTotal (ds.foldl (fun a d => addToGroup a d.batchId d.quantity) acc) i
        = groupTotal acc i + deductedFrom ds i by
    simpa [groupDeductions, groupTotal_nil] using h []
  induction ds with
  | nil => intro acc; simp [deductedFrom_nil]
  | cons d ds ih =>
    intro acc
    simp only [List.foldl_cons, ih, addToGroup_total, deductedFrom_cons]
    omega

/-- Folding the grouped additive writes over a store adds each id's grouped
total to every row holding that id. -/
lemma foldl_addRemaining (gs : List (Nat × Int)) :
    ∀ store : List StockBatch,
      gs.foldl addRemaining store
        = store.map (fun b =>
            { b with remainingQuantity := b.remainingQuantity + groupTotal gs b.id }) := by
  induction gs with
  | nil =>
    intro store
    simp only [List.foldl_nil, groupTotal_nil, Int.add_zero]
    exact (List.map_id'' (fun x => rfl) _).symm
  | cons u gs ih =>
    intro store
    simp only [List.foldl_cons]
    rw [ih (addRemaining store u), addRemaining, List.map_map]
    refine List.map_congr_left ?_
    intro x _
    simp only [Function.comp]
    by_cases hx : x.id = u.1
    · rw [if_pos hx]
      simp only [groupTotal_cons, StockBatch.mk.injEq, true_and, and_true]
      rw [if_pos hx.symm]
      omega
    · rw [if_neg hx]
      simp only [groupTotal_cons, StockBatch.mk.injEq, true_and, and_true]
      rw [if_neg (fun h => hx h.symm)]
      omega

/-- C4 (confirmed): reverting the deductions a successful allocation applied
restores every batch's remaining quantity to its pre-sale value — the grouped
per-batch add-back is the exact inverse of the allocator's per-batch
decrements, so the rolled-back store is the original store.  This is the
orchestrator's compensation path: a sale that fails after some line items'
batch mutations succeeded calls `revertDeductions` on all deductions applied
so far. -/
theorem rollback_restores_batches (store : List StockBatch) (pid : Nat) (q : Int)
    (hnd : (store.map (fun b => b.id)).Nodup)
    (hs : (deductStockFIFOAsync store pid q).1.success = true) :
    revertDeductions (deductStockFIFOAsync store pid q).2
        (deductStockFIFOAsync store pid q).1.deductions = store := by
  rw [deductStockFIFO_state_eq store pid q hnd hs, revertDeductions,
    foldl_addRemaining, List.map_map]
  refine List.map_id'' ?_ _
  intro x
  simp only [Function.comp, groupDeductions_total]
  rw [Int.sub_add_cancel]

/-- Witness for C4: a two-product store, a successful allocation of 3 against
product 1 (the first line item of a sale), then the rollback — the store is
restored bit for bit. -/
theorem rollback_restores_batches_witness :
    ((([⟨1, 1, 1, 1, 2, 5⟩, ⟨2, 2, 1, 1, 3, 4⟩] : List StockBatch).map
        (fun b => b.id)).Nodup) ∧
    (deductStockFIFOAsync [⟨1, 1, 1, 1, 2, 5⟩, ⟨2, 2, 1, 1, 3, 4⟩] 1 3).1.success = true ∧
    revertDeductions
        (deductStockFIFOAsync [⟨1, 1, 1, 1, 2, 5⟩, ⟨2, 2, 1, 1, 3, 4⟩] 1 3).2
        (deductStockFIFOAsync [⟨1, 1, 1, 1, 2, 5⟩, ⟨2, 2, 1, 1, 3, 4⟩] 1 3).1.deductions
      = [⟨1, 1, 1, 1, 2, 5⟩, ⟨2, 2, 1, 1, 3, 4⟩] :=
  ⟨by decide, by decide,
    rollback_restores_batches [⟨1, 1, 1, 1, 2, 5⟩, ⟨2, 2, 1, 1, 3, 4⟩] 1 3
      (by decide) (by decide)⟩

/-! ### Alert Generator (the Supabase-backed alert module bundled with
src/src/lib/permissions.ts: fetchProductInventory and generateProductAlerts) -/

inductive AlertType
  | low_stock
  | out_of_stock
  | expiring_soon
  | expired
  deriving Repr, DecidableEq

inductive AlertSeverity
  | low
  | medium
  | high
  | critical
  deriving Repr, DecidableEq

/-- An alert candidate (`AlertCheck` in the alert module).  The
human-readable `message` and the `productName` are presentation strings and
are omitted. -/
structure AlertCheck where
  productId : Nat
  type : AlertType
  severity : AlertSeverity
  batchId : Option Nat
  expiryDate : Option Int
  deriving Repr, DecidableEq

/-- `fetchProductInventory`'s batch query: *all* stock-batch rows of the
product ordered by expiry date ascending — note there is no
`remaining_quantity > 0` filter in this query, unlike
`fetchStockBatchesByProduct` in the stock service. -/
def fetchInventoryBatches (store : List StockBatch) (productId : Nat) : List StockBatch :=
  List.insertionSort (fun a b => a.expiryDate ≤ b.expiryDate)
    (batchesForProduct store productId)

/-- The body of `generateProductAlerts`' per-batch `forEach`: at most one
expiry candidate per batch.  `getDaysUntilExpiry` is `expiryDate - today` and
`isExpired` is `expiryDate < today` (see the date convention above). -/
def batchExpiryAlert (productId : Nat) (today : Int) (b : StockBatch) : Option AlertCheck :=
  if b.expiryDate < today then
    some ⟨productId, AlertType.expired, AlertSeverity.critical, some b.id, some b.expiryDate⟩
  else if b.expiryDate - today ≤ 30 then
    some ⟨productId, AlertType.expiring_soon, AlertSeverity.high, some b.id, some b.expiryDate⟩
  else if b.expiryDate - today ≤ 90 then
    some ⟨productId, AlertType.expiring_soon, AlertSeverity.medium, some b.id, some b.expiryDate⟩
  else none

/-- `generateProductAlerts`: inactive products yield nothing; otherwise one
stock-level candidate (`out_of_stock` at quantity 0, else `low_stock` when at
or under the reorder point), then one expiry candidate per fetched batch.
The severity test `stock.quantity <= product.reorderPoint * 0.3` is encoded
in exact integer arithmetic as `10 * quantity ≤ 3 * reorderPoint`, its exact
rational equivalent. -/
def generateProductAlerts (p : Product) (movements : List StockMovement)
    (store : List StockBatch) (today : Int) : List AlertCheck :=
  if !p.active then []
  else
    (if calculateCurrentStock movements p.id = 0 then
      [⟨p.id, AlertType.out_of_stock, AlertSeverity.critical, none, none⟩]
    else if calculateCurrentStock movements p.id ≤ p.reorderPoint then
      [⟨p.id, AlertType.low_stock,
        (if 10 * calculateCurrentStock movements p.id ≤ 3 * p.reorderPoint then
          AlertSeverity.high
        else AlertSeverity.medium), none, none⟩]
    else [])
    ++ (fetchInventoryBatches store p.id).filterMap (batchExpiryAlert p.id today)

/-- The per-batch loop only emits expiry-related candidate types. -/
lemma batch_alerts_expiry_typed (pid : Nat) (store : List StockBatch) (today : Int)
    (a : AlertCheck)
    (ha : a ∈ (fetchInventoryBatches store pid).filterMap (batchExpiryAlert pid today)) :
    a.type = AlertType.expired ∨ a.type = AlertType.expiring_soon := by
  obtain ⟨b, -, hfb⟩ := List.mem_filterMap.1 ha
  rw [batchExpiryAlert] at hfb
  split_ifs at hfb
  · cases Option.some.inj hfb
    exact Or.inl rfl
  · cases Option.some.inj hfb
    exact Or.inr rfl
  · cases Option.some.inj hfb
    exact Or.inr rfl

/-- C6 (confirmed): the stock-level candidates follow the specified rules —
exactly one critical `out_of_stock` candidate when the ledger quantity is 0;
otherwise exactly one `low_stock` candidate when the quantity is at or below
the reorder point, with severity `high` when the quantity is at most 30% of
the reorder point and `medium` otherwise; and no stock-level candidate above
the reorder point. -/
theorem stock_level_alert_rules (p : Product) (ms : List StockMovement)
    (store : List StockBatch) (today : Int) (ha : p.active = true) :
    (generateProductAlerts p ms store today).filter
        (fun a => a.type = AlertType.out_of_stock)
      = (if calculateCurrentStock ms p.id = 0 then
          [⟨p.id, AlertType.out_of_stock, AlertSeverity.critical, none, none⟩]
        else []) ∧
    (generateProductAlerts p ms store today).filter
        (fun a => a.type = AlertType.low_stock)
      = (if calculateCurrentStock ms p.id ≠ 0 ∧
            calculateCurrentStock ms p.id ≤ p.reorderPoint then
          [⟨p.id, AlertType.low_stock,
            (if 10 * calculateCurrentStock ms p.id ≤ 3 * p.reorderPoint then
              AlertSeverity.high
            else AlertSeverity.medium), none, none⟩]
        else []) := by
  have hbatch : ∀ t : AlertType, t = AlertType.out_of_stock ∨ t = AlertType.low_stock →
      ((fetchInventoryBatches store p.id).filterMap (batchExpiryAlert p.id today)).filter
          (fun a => a.type = t) = [] := by
    intro t ht
    rw [List.filter_eq_nil_iff]
    intro a hmem
    rcases batch_alerts_expiry_typed p.id store today a hmem with h | h <;>
      rcases ht with rfl | rfl <;> simp [h]
  rw [generateProductAlerts]
  simp only [ha, Bool.not_true, Bool.false_eq_true, if_false, List.filter_append,
    hbatch AlertType.out_of_stock (Or.inl rfl), hbatch AlertType.low_stock (Or.inr rfl),
    List.append_nil]
  by_cases hq : calculateCurrentStock ms p.id = 0
  · simp [hq]
  · by_cases hle : calculateCurrentStock ms p.id ≤ p.reorderPoint
    · simp [hq, hle]
    · simp [hq, hle]

/-- Witness for C6: the specification's scenario — reorder point 100:
ledger quantity 100 yields exactly the single medium `low_stock` candidate,
quantity 25 yields exactly the single high one. -/
theorem stock_level_alert_rules_witness :
    (Product.mk 1 2 100 true).active = true ∧
    (generateProductAlerts ⟨1, 2, 100, true⟩ [⟨1, 100⟩] [] 0).filter
        (fun a => a.type = AlertType.low_stock)
      = [⟨1, AlertType.low_stock, AlertSeverity.medium, none, none⟩] ∧
    (generateProductAlerts ⟨1, 2, 100, true⟩ [⟨1, 25⟩] [] 0).filter
        (fun a => a.type = AlertType.low_stock)
      = [⟨1, AlertType.low_stock, AlertSeverity.high, none, none⟩] := by
  have h1 := (stock_level_alert_rules ⟨1, 2, 100, true⟩ [⟨1, 100⟩] [] 0 rfl).2
  have h2 := (stock_level_alert_rules ⟨1, 2, 100, true⟩ [⟨1, 25⟩] [] 0 rfl).2
  refine ⟨rfl, ?_, ?_⟩
  · rw [h1]; decide
  · rw [h2]; decide

/-- C7 counterexample to the claim as stated: a batch whose remaining
quantity is 0 (exhausted) and whose expiry date (day 0) is before today
(day 5) still produces an `expired` candidate — `fetchProductInventory`
fetches the product's batches without any `remaining_quantity > 0` filter. -/
theorem exhausted_batch_still_alerts :
    (⟨1, AlertType.expired, AlertSeverity.critical, some 1, some 0⟩ : AlertCheck)
      ∈ generateProductAlerts ⟨1, 2, 0, true⟩ [] [⟨1, 1, 1, 0, 2, 0⟩] 5 := by decide

/-- C7 (corrected): the alert generator emits expiry candidates for every
batch of the product regardless of its remaining quantity — in particular an
exhausted batch (remaining quantity 0) whose expiry date lies in the past
still yields an `expired` candidate. -/
theorem expiry_alert_regardless_of_remaining (p : Product) (ms : List StockMovement)
    (store : List StockBatch) (today : Int) (b : StockBatch)
    (ha : p.active = true) (hb : b ∈ store) (hpid : b.productId = p.id)
    (hr : b.remainingQuantity = 0) (he : b.expiryDate < today) :
    (⟨p.id, AlertType.expired, AlertSeverity.critical, some b.id, some b.expiryDate⟩ : AlertCheck)
      ∈ generateProductAlerts p ms store today := by
  rw [generateProductAlerts]
  simp only [ha, Bool.not_true, Bool.false_eq_true, if_false]
  refine List.mem_append_right _ (List.mem_filterMap.2 ⟨b, ?_, ?_⟩)
  · rw [fetchInventoryBatches, List.mem_insertionSort]
    exact List.mem_filter.2 ⟨hb, by simp [hpid]⟩
  · rw [batchExpiryAlert, if_pos he]

/-- Witness for C7's corrected statement. -/
theorem expiry_alert_regardless_of_remaining_witness :
    (Product.mk 1 2 0 true).active = true ∧
    (⟨1, 1, 1, 0, 2, 0⟩ : StockBatch) ∈ ([⟨1, 1, 1, 0, 2, 0⟩] : List StockBatch) ∧
    (StockBatch.mk 1 1 1 0 2 0).productId = (Product.mk 1 2 0 true).id ∧
    (StockBatch.mk 1 1 1 0 2 0).remainingQuantity = 0 ∧
    (StockBatch.mk 1 1 1 0 2 0).expiryDate < 5 ∧
    (⟨1, AlertType.expired, AlertSeverity.critical, some 1, some 0⟩ : AlertCheck)
      ∈ generateProductAlerts ⟨1, 2, 0, true⟩ [⟨1, 3⟩] [⟨1, 1, 1, 0, 2, 0⟩] 5 :=
  ⟨rfl, by decide, rfl, rfl, by decide,
    expiry_alert_regardless_of_remaining ⟨1, 2, 0, true⟩ [⟨1, 3⟩] [⟨1, 1, 1, 0, 2, 0⟩] 5
      ⟨1, 1, 1, 0, 2, 0⟩ rfl (by decide) rfl rfl (by decide)⟩

/-! ### Stocktake Reconciler (src/src/components/stocktake/StocktakeManager.tsx,
approveAdjustments) -/

inductive StocktakeStatus
  | counting
  | approved
  | cancelled
  deriving Repr, DecidableEq

/-- A stocktake item (`StocktakeItem` in src/src/lib/types.ts); presentation
fields are omitted. -/
structure StocktakeItem where
  id : Nat
  productId : Nat
  systemQuantity : Int
  countedQuantity : Int
  variance : Int
  adjusted : Bool
  adjustmentMovementId : Option Nat
  deriving Repr, DecidableEq

/-- The `stocktake` movement written per adjusted item (`insertStockMovement`
with `type: 'stocktake'`, `quantity: item.variance`, `reference: session.id`).
The database-generated movement id is modelled by the (unique) id of the item
that produced it; `costPrice` is 0 in the source and the reason string is
omitted. -/
structure AdjustmentMovement where
  id : Nat
  productId : Nat
  quantity : Int
  reference : Nat
  deriving Repr, DecidableEq

/-- `approveAdjustments`: filter the session's items to those with non-zero
variance and not yet adjusted; if none, leave the session untouched ("No
Adjustments" early return); otherwise write one `stocktake` movement per such
item (quantity = the item's variance) and upsert the item with recomputed
variance, `adjusted := true` and a reference to the new movement, then set
the session status to `approved`. -/
def approveAdjustments (sessionId : Nat) (status : StocktakeStatus)
    (items : List StocktakeItem) :
    StocktakeStatus × List (AdjustmentMovement × StocktakeItem) :=
  if (items.filter (fun i => i.variance != 0 && !i.adjusted)).isEmpty then
    (status, [])
  else
    (StocktakeStatus.approved,
      (items.filter (fun i => i.variance != 0 && !i.adjusted)).map (fun i =>
        (⟨i.id, i.productId, i.variance, sessionId⟩,
         { i with
             variance := i.countedQuantity - i.systemQuantity,
             adjusted := true,
             adjustmentMovementId := some i.id })))

/-- C8 (confirmed): on approval, provided every item's stored variance is the
recomputed `countedQuantity - systemQuantity` (the component recomputes it on
every write) and at least one item qualifies, the session transitions to
`approved`, exactly one movement/updated-item pair is produced per qualifying
item (in order), and for each pair the movement's signed quantity is the
item's variance, the item is marked adjusted with a reference to that
movement, and `countedQuantity = systemQuantity + movement.quantity`. -/
theorem stocktake_approval_closes_variance (sessionId : Nat) (status : StocktakeStatus)
    (items : List StocktakeItem)
    (hv : ∀ i ∈ items, i.variance = i.countedQuantity - i.systemQuantity)
    (hne : ∃ i ∈ items, i.variance ≠ 0 ∧ i.adjusted = false) :
    (approveAdjustments sessionId status items).1 = StocktakeStatus.approved ∧
    (approveAdjustments sessionId status items).2.map (fun mi => mi.2.id)
      = (items.filter (fun i => i.variance != 0 && !i.adjusted)).map (fun i => i.id) ∧
    ∀ mi ∈ (approveAdjustments sessionId status items).2,
      mi.1.quantity = mi.2.countedQuantity - mi.2.systemQuantity ∧
      mi.2.adjusted = true ∧
      mi.2.adjustmentMovementId = some mi.1.id ∧
      mi.1.reference = sessionId ∧
      mi.2.countedQuantity = mi.2.systemQuantity + mi.1.quantity := by
  obtain ⟨j, hj, hjv, hja⟩ := hne
  have hmem : j ∈ items.filter (fun i => i.variance != 0 && !i.adjusted) :=
    List.mem_filter.2 ⟨hj, by simp [hjv, hja]⟩
  have hnonempty : ¬ (items.filter (fun i => i.variance != 0 && !i.adjusted)).isEmpty := by
    intro h
    rw [List.isEmpty_iff] at h
    rw [h] at hmem
    cases hmem
  rw [approveAdjustments, if_neg hnonempty]
  refine ⟨rfl, by rw [List.map_map]; exact List.map_congr_left (fun i _ => rfl), ?_⟩
  intro mi hmi
  obtain ⟨i, hi, rfl⟩ := List.mem_map.1 hmi
  have hiv : i.variance = i.countedQuantity - i.systemQuantity :=
    hv i (List.mem_filter.1 hi).1
  refine ⟨hiv, rfl, rfl, rfl, ?_⟩
  show i.countedQuantity = i.systemQuantity + i.variance
  omega

/-- Witness for C8: one item counted 12 against a system quantity of 10. -/
theorem stocktake_approval_closes_variance_witness :
    (∀ i ∈ [(⟨1, 1, 10, 12, 2, false, none⟩ : StocktakeItem)],
      i.variance = i.countedQuantity - i.systemQuantity) ∧
    (∃ i ∈ [(⟨1, 1, 10, 12, 2, false, none⟩ : StocktakeItem)],
      i.variance ≠ 0 ∧ i.adjusted = false) ∧
    (approveAdjustments 7 StocktakeStatus.counting
        [⟨1, 1, 10, 12, 2, false, none⟩]).1 = StocktakeStatus.approved ∧
    ∀ mi ∈ (approveAdjustments 7 StocktakeStatus.counting
        [⟨1, 1, 10, 12, 2, false, none⟩]).2,
      mi.1.quantity = mi.2.countedQuantity - mi.2.systemQuantity ∧
      mi.2.adjusted = true ∧
      mi.2.adjustmentMovementId = some mi.1.id ∧
      mi.1.reference = 7 ∧
      mi.2.countedQuantity = mi.2.systemQuantity + mi.1.quantity := by
  have h := stocktake_approval_closes_variance 7 StocktakeStatus.counting
    [⟨1, 1, 10, 12, 2, false, none⟩] (by decide) ⟨⟨1, 1, 10, 12, 2, false, none⟩, by decide⟩
  exact ⟨by decide, ⟨⟨1, 1, 10, 12, 2, false, none⟩, by decide⟩, h.1, h.2.2⟩

/-! ### Valuation Engine (src/src/lib/calculations.ts,
calculateInventoryStatsAsync, cost-valuation part) -/

/-- The `uniqueBatchesMap` construction of `calculateInventoryStatsAsync`:
walk the fetched batch rows, keeping the first row seen for each batch id
(`if (!uniqueBatchesMap.has(batch.id)) set(...)`).  `seen` is the set of ids
already in the map. -/
def dedupAux : List StockBatch → List Nat → List StockBatch
  | [], _ => []
  | b :: rest, seen =>
    if b.id ∈ seen then dedupAux rest seen
    else b :: dedupAux rest (b.id :: seen)

/-- Batches deduplicated by identity, first occurrence kept. -/
def dedupBatchesById (stockBatches : List StockBatch) : List StockBatch :=
  dedupAux stockBatches []

/-- The per-product cost valuation of `calculateInventoryStatsAsync`: the
product's (deduplicated) batches with positive remaining quantity, sorted by
expiry; if any, sum `remainingQuantity × costPrice` over the batches that
additionally have a positive cost price, skipping negative products of the
two (the source's `!isFinite(batchValue) || batchValue < 0` guard — the
non-finite case cannot arise over exact rationals), and contribute the total
only if it is non-negative. -/
def productCostValue (productId : Nat) (uniqueBatches : List StockBatch) : ℚ :=
  if (List.insertionSort (fun a b => a.expiryDate ≤ b.expiryDate)
      ((uniqueBatches.filter (fun b => b.productId = productId)).filter
        (fun b => 0 < b.remainingQuantity))).isEmpty then 0
  else
    if 0 ≤ ((List.insertionSort (fun a b => a.expiryDate ≤ b.expiryDate)
        ((uniqueBatches.filter (fun b => b.productId = productId)).filter
          (fun b => 0 < b.remainingQuantity))).filter
        (fun b => 0 < b.remainingQuantity ∧ 0 < b.costPrice)).foldl
        (fun sum b =>
          if (b.remainingQuantity : ℚ) * b.costPrice < 0 then sum
          else sum + (b.remainingQuantity : ℚ) * b.costPrice) 0 then
      ((List.insertionSort (fun a b => a.expiryDate ≤ b.expiryDate)
        ((uniqueBatches.filter (fun b => b.productId = productId)).filter
          (fun b => 0 < b.remainingQuantity))).filter
        (fun b => 0 < b.remainingQuantity ∧ 0 < b.costPrice)).foldl
        (fun sum b =>
          if (b.remainingQuantity : ℚ) * b.costPrice < 0 then sum
          else sum + (b.remainingQuantity : ℚ) * b.costPrice) 0
    else 0

/-- `totalCostValue` of `calculateInventoryStatsAsync`: the batch list is
deduplicated by id once, then each active product accumulates its cost
valuation. -/
def totalCostValue (products : List Product) (stockBatches : List StockBatch) : ℚ :=
  (products.map (fun p => productCostValue p.id (dedupBatchesById stockBatches))).sum

/-- Inserting a row whose id was already seen leaves the deduplication
unchanged. -/
lemma dedupAux_drop (b : StockBatch) (l₂ : List StockBatch) :
    ∀ (l₁ : List StockBatch) (seen : List Nat),
      (b.id ∈ seen ∨ b.id ∈ l₁.map (fun x => x.id)) →
      dedupAux (l₁ ++ b :: l₂) seen = dedupAux (l₁ ++ l₂) seen := by
  intro l₁
  induction l₁ with
  | nil =>
    intro seen h
    rcases h with h | h
    · simp only [List.nil_append, dedupAux, if_pos h]
    · cases h
  | cons c rest ih =>
    intro seen h
    simp only [List.cons_append, dedupAux]
    by_cases hc : c.id ∈ seen
    · rw [if_pos hc, if_pos hc]
      apply ih
      rcases h with h | h
      · exact Or.inl h
      · simp only [List.map_cons, List.mem_cons] at h
        rcases h with h | h
        · exact Or.inl (by rw [h]; exact hc)
        · exact Or.inr h
    · rw [if_neg hc, if_neg hc]
      congr 1
      apply ih
      rcases h with h | h
      · exact Or.inl (List.mem_cons_of_mem _ h)
      · simp only [List.map_cons, List.mem_cons] at h
        rcases h with h | h
        · exact Or.inl (by rw [h]; exact List.mem_cons_self _ _)
        · exact Or.inr h

/-- C9 (confirmed): the total cost valuation of a batch list containing a
second row with an already-present batch id equals the valuation of the list
without that duplicate row — batches are deduplicated by identity before the
`remainingQuantity × costPrice` sum. -/
theorem valuation_dedup_by_batch_id (products : List Product)
    (l₁ l₂ : List StockBatch) (b : StockBatch)
    (hdup : b.id ∈ l₁.map (fun x => x.id)) :
    totalCostValue products (l₁ ++ b :: l₂) = totalCostValue products (l₁ ++ l₂) := by
  have hd : dedupBatchesById (l₁ ++ b :: l₂) = dedupBatchesById (l₁ ++ l₂) :=
    dedupAux_drop b l₂ l₁ [] (Or.inr hdup)
  rw [totalCostValue, totalCostValue, dedupBatchesById] at *
  rw [hd]

/-- Witness for C9: the same batch row fed twice values the same as fed
once. -/
theorem valuation_dedup_by_batch_id_witness :
    (StockBatch.mk 1 1 1 9 3 4).id
      ∈ ([⟨1, 1, 1, 9, 3, 4⟩] : List StockBatch).map (fun x => x.id) ∧
    totalCostValue [⟨1, 2, 0, true⟩] ([⟨1, 1, 1, 9, 3, 4⟩] ++ ⟨1, 1, 1, 9, 3, 4⟩ :: [])
      = totalCostValue [⟨1, 2, 0, true⟩] ([⟨1, 1, 1, 9, 3, 4⟩] ++ []) :=
  ⟨by decide,
    valuation_dedup_by_batch_id [⟨1, 2, 0, true⟩] [⟨1, 1, 1, 9, 3, 4⟩] []
      ⟨1, 1, 1, 9, 3, 4⟩ (by decide)⟩

/-! ### Receiving-stock cost normalisation (src/src/services/stock.ts,
normalizeCostPrice, insertStockBatch) -/

/-- `normalizeCostPrice`: if the supplied cost price looks like a pack cost —
greater than 100 with more than one unit, a plausible computed per-unit price
(between 0.01 and 100000), and an implausibly high batch value
(`costPrice * quantity > 100000`) — store the computed per-unit price
instead; otherwise store the supplied value unchanged. -/
def normalizeCostPrice (costPrice quantity : ℚ) : ℚ :=
  if 100 < costPrice ∧ 1 < quantity then
    if 1 / 100 ≤ costPrice / quantity ∧ costPrice / quantity ≤ 100000 then
      if 100000 < costPrice * quantity then costPrice / quantity
      else costPrice
    else costPrice
  else costPrice

/-- The payload of `insertStockBatch` (fields the cost normalisation reads,
plus the row identity fields). -/
structure StockBatchInsert where
  productId : Nat
  batchNumber : Nat
  expiryDate : Int
  costPrice : ℚ
  remainingQuantity : Int
  deriving Repr, DecidableEq

/-- The `cost_price` column value `insertStockBatch` stores:
`normalizeCostPrice(payload.costPrice, payload.remainingQuantity)`.
(`updateStockBatch` routes a cost-price update through the same function,
with the row's current remaining quantity when none is supplied.) -/
def insertedCostPrice (payload : StockBatchInsert) : ℚ :=
  normalizeCostPrice payload.costPrice (payload.remainingQuantity : ℚ)

/-- C10 (confirmed): the stored cost price is `costPrice / quantity` exactly
when `costPrice > 100`, `quantity > 1`, `costPrice / quantity` lies in
`[0.01, 100000]` and `costPrice × quantity > 100000`; in every other case
the supplied cost price is stored unchanged. -/
theorem pack_cost_normalization (payload : StockBatchInsert) :
    insertedCostPrice payload =
      if 100 < payload.costPrice ∧ 1 < (payload.remainingQuantity : ℚ) ∧
          1 / 100 ≤ payload.costPrice / (payload.remainingQuantity : ℚ) ∧
          payload.costPrice / (payload.remainingQuantity : ℚ) ≤ 100000 ∧
          100000 < payload.costPrice * (payload.remainingQuantity : ℚ) then
        payload.costPrice / (payload.remainingQuantity : ℚ)
      else payload.costPrice := by
  rw [insertedCostPrice, normalizeCostPrice]
  split_ifs <;> first | rfl | tauto

end Pharmacy
